import Mathlib

/-!
# Verification of the IAM rules scanner core
  (`google/cloud/forseti/scanner/scanners/iam_rules_scanner.py`)

We shallowly embed the scanner's core: the ancestor-binding resolver
`_add_bucket_ancestor_bindings`, the violation flattener
`_flatten_violations`, and the empty-retrieval guard of `_retrieve`/`run`.

Python semantics that matter here and are modelled explicitly:

* Binding lists hold *references* to mutable binding objects.
  `bucket_bindings.append(ancestor_binding)` appends the very object that
  also sits in the ancestor's binding list, and
  `bucket_binding.merge_members(...)` mutates the object in place, so the
  same object may be observed (and mutated) through several lists.  We model
  this with a heap: a store of `Binding` values indexed by natural-number
  references, and per-tuple lists of references.
* `IamPolicyBinding.__eq__` and `IamPolicyBinding.merge_members` are not
  part of the source under scrutiny; following the specification, binding
  equality is "identical role and identical member set" and merging is
  in-place member-set union.
* `bucket.full_name.find(resource.full_name)` uses Python `str.find`
  (lowest index of occurrence, `-1` when absent) and its *truthiness*:
  the ancestor candidate survives exactly when `find` returns `0`.
-/

/-- One member (principal) of a binding, e.g. `user:alice`. -/
structure Member where
  type : String
  name : String
deriving DecidableEq

/-- Modelled from the spec: `IamPolicyBinding` (module
`google.cloud.forseti.common.gcp_type.iam_policy`, not under scrutiny
here) is a mutable object holding a role name and a set of members;
two bindings are equal iff both the role and the member set coincide. -/
structure Binding where
  role_name : String
  members : Finset Member
deriving DecidableEq

instance : Inhabited Binding := ⟨⟨"", ∅⟩⟩

/-- Modelled from the spec: `IamPolicyBinding.merge_members` replaces the
receiver's member set by its union with the argument's member set,
in place (the role name is untouched). -/
def merge_members (b other : Binding) : Binding :=
  { b with members := b.members ∪ other.members }

/-- The Forseti gcp-type resource view used by the scanner: a type tag
(`"organization" | "folder" | "project" | "bucket"`), a name and the
hierarchical `full_name` path. -/
structure Resource where
  type : String
  name : String
  full_name : String
deriving DecidableEq

instance : Inhabited Resource := ⟨⟨"", "", ""⟩⟩

/-- One `(resource, policy, policy_bindings)` tuple of `policy_data`.
`bindings` is a list of references into the binding store (Python lists
hold object references). -/
structure PolicyTuple where
  resource : Resource
  policy : String
  bindings : List Nat
deriving DecidableEq

instance : Inhabited PolicyTuple := ⟨⟨default, "", []⟩⟩

/-- The mutable state of one scan: the heap of binding objects and the
list of policy tuples. -/
structure St where
  store : List Binding
  tuples : List PolicyTuple
deriving DecidableEq

/-- Dereference a binding object. -/
def getB (store : List Binding) (r : Nat) : Binding :=
  store.getD r default

/-- The binding *values* currently held by tuple `i`. -/
def tupleValsAt (s : St) (i : Nat) : List Binding :=
  ((s.tuples.getD i default).bindings).map (getB s.store)

/-- Value view of the whole state: each tuple's resource together with its
current binding values. -/
def tupleVals (s : St) : List (Resource × List Binding) :=
  s.tuples.map (fun t => (t.resource, t.bindings.map (getB s.store)))

/-- Python `hay.find(needle)`: lowest index at which `needle` occurs in
`hay`, `-1` when it does not occur. -/
def pyStrFind (hay needle : String) : Int :=
  match (List.range (hay.data.length + 1)).find?
      (fun i => needle.data.isPrefixOf (hay.data.drop i)) with
  | some i => (i : Int)
  | none => -1

/-- The storage-relevant role allow-list `storage_iam_roles`. -/
def storage_iam_roles : List String :=
  [ "roles/storage.admin",
    "roles/storage.objectViewer",
    "roles/storage.objectCreator",
    "roles/storage.objectAdmin" ]

/-- One iteration of the innermost loop of `_add_bucket_ancestor_bindings`:
process the ancestor binding referenced by `aref` against the bucket tuple
at index `bi`.  Mirrors, in order: the allow-list test, the
`ancestor_binding in bucket_bindings` value-equality test, the first
same-`role_name` scan with in-place `merge_members`, and the `else:` append
of the (shared) ancestor binding reference. -/
def processAncestorRef (bi : Nat) (s : St) (aref : Nat) : St :=
  let ab := getB s.store aref
  if ab.role_name ∉ storage_iam_roles then s
  else if ab ∈ ((s.tuples.getD bi default).bindings).map (getB s.store) then s
  else
    match ((s.tuples.getD bi default).bindings).find?
        (fun r => (getB s.store r).role_name == ab.role_name) with
    | some bref =>
        { s with store := s.store.set bref (merge_members (getB s.store bref) ab) }
    | none =>
        let t := s.tuples.getD bi default
        { s with tuples := s.tuples.set bi { t with bindings := t.bindings ++ [aref] } }

/-- The candidate-ancestor collection loop for one bucket: keep a tuple
unless its `full_name` equals the bucket's, or
`bucket.full_name.find(resource.full_name)` is truthy (non-zero). -/
def candidate_ancestors (s : St) (bucket_full_name : String) : List PolicyTuple :=
  s.tuples.filter (fun t =>
    !(t.resource.full_name == bucket_full_name) &&
    pyStrFind bucket_full_name t.resource.full_name == 0)

/-- Processing of one bucket tuple (index `bi`): fold the innermost loop
over all bindings of all candidate ancestors, in list order.  (The
candidate ancestors' reference lists are collected up front, as in the
source; during this fold only tuple `bi`'s reference list changes, and
tuple `bi` is never its own candidate, so the collection is stable.) -/
def processBucket (s : St) (bi : Nat) : St :=
  let bname := (s.tuples.getD bi default).resource.full_name
  (((candidate_ancestors s bname).map (·.bindings)).flatten).foldl
    (processAncestorRef bi) s

/-- `_add_bucket_ancestor_bindings`: fold bucket processing over the
indices of all bucket-type tuples, in list order (`bucket_data` order). -/
def add_bucket_ancestor_bindings (s : St) : St :=
  (((List.range s.tuples.length).filter
      (fun i => (s.tuples.getD i default).resource.type == "bucket"))).foldl
    processBucket s

/-- Spec-worded view of the per-binding merge: merge the ancestor binding's
members into the *first* existing binding with the same `role_name`;
when no binding with that role exists, append the ancestor binding as a
new entry. -/
def merge_into_first (bb : List Binding) (ab : Binding) : List Binding :=
  match bb with
  | [] => [ab]
  | b :: rest =>
      if b.role_name == ab.role_name then merge_members b ab :: rest
      else b :: merge_into_first rest ab

/-- Spec-worded view of one per-ancestor-binding step, on binding *values*:
skip roles outside the storage allow-list; skip a binding identical (same
role and same member set) to one already on the bucket; otherwise merge
by role or append. -/
def step_spec (bb : List Binding) (ab : Binding) : List Binding :=
  if ab.role_name ∉ storage_iam_roles then bb
  else if ab ∈ bb then bb
  else merge_into_first bb ab

/-- The `role_name`s of the binding values currently held by tuple `i`. -/
def roleList (s : St) (i : Nat) : List String :=
  (tupleValsAt s i).map (·.role_name)

/-- Growth preorder on states: the store keeps every binding's role and can
only gain members, and every tuple keeps its resource and can only gain
binding references at the end of its list. -/
def st_grows (s s' : St) : Prop :=
  s'.tuples.length = s.tuples.length ∧
  (∀ r, (getB s'.store r).role_name = (getB s.store r).role_name ∧
        (getB s.store r).members ⊆ (getB s'.store r).members) ∧
  (∀ i, (s'.tuples.getD i default).resource = (s.tuples.getD i default).resource ∧
        ∃ ext, (s'.tuples.getD i default).bindings =
          (s.tuples.getD i default).bindings ++ ext)

/-- Concrete state: an organization `o/` granting `roles/storage.admin` to
`bob`, a project `o/p/` granting it to `alice`, and an empty bucket
`o/p/b`. -/
def cex4 : St :=
  { store := [⟨"roles/storage.admin", {⟨"user", "bob"⟩}⟩,
              ⟨"roles/storage.admin", {⟨"user", "alice"⟩}⟩],
    tuples :=
      [ ⟨⟨"organization", "o", "o/"⟩, "", [0]⟩,
        ⟨⟨"project", "p", "o/p/"⟩, "", [1]⟩,
        ⟨⟨"bucket", "b", "o/p/b"⟩, "", []⟩ ] }

/-- Concrete state: projects `o/` (admin `x`) and `o/c/` (admin `z`), a
bucket `o/b` with its own admin binding for `w`, and an empty bucket
`o/c/c1`. -/
def cex7 : St :=
  { store := [⟨"roles/storage.admin", {⟨"user", "x"⟩}⟩,
              ⟨"roles/storage.admin", {⟨"user", "z"⟩}⟩,
              ⟨"roles/storage.admin", {⟨"user", "w"⟩}⟩],
    tuples :=
      [ ⟨⟨"project", "a", "o/"⟩, "", [0]⟩,
        ⟨⟨"project", "d", "o/c/"⟩, "", [1]⟩,
        ⟨⟨"bucket", "b", "o/b"⟩, "", [2]⟩,
        ⟨⟨"bucket", "c", "o/c/c1"⟩, "", []⟩ ] }

/-- Concrete state: organization `o/` (admin `a`), folder `o/f/` (admin
`c`), empty buckets `o/f/b` and `o/b2`; organization listed first. -/
def cex3a : St :=
  { store := [⟨"roles/storage.admin", {⟨"user", "a"⟩}⟩,
              ⟨"roles/storage.admin", {⟨"user", "c"⟩}⟩],
    tuples :=
      [ ⟨⟨"organization", "o", "o/"⟩, "", [0]⟩,
        ⟨⟨"folder", "f", "o/f/"⟩, "", [1]⟩,
        ⟨⟨"bucket", "b", "o/f/b"⟩, "", []⟩,
        ⟨⟨"bucket", "b2", "o/b2"⟩, "", []⟩ ] }

/-- The same tuples (and the same store) as `cex3a`, with the folder
processed before the organization. -/
def cex3b : St :=
  { store := [⟨"roles/storage.admin", {⟨"user", "a"⟩}⟩,
              ⟨"roles/storage.admin", {⟨"user", "c"⟩}⟩],
    tuples :=
      [ ⟨⟨"folder", "f", "o/f/"⟩, "", [1]⟩,
        ⟨⟨"organization", "o", "o/"⟩, "", [0]⟩,
        ⟨⟨"bucket", "b", "o/f/b"⟩, "", []⟩,
        ⟨⟨"bucket", "b2", "o/b2"⟩, "", []⟩ ] }

/-- Concrete state: a project whose `full_name` is the empty string,
granting `roles/storage.admin` to `a`, and an empty bucket `b`. -/
def cex5 : St :=
  { store := [⟨"roles/storage.admin", {⟨"user", "a"⟩}⟩],
    tuples :=
      [ ⟨⟨"project", "p", ""⟩, "", [0]⟩,
        ⟨⟨"bucket", "b", "b"⟩, "", []⟩ ] }

/-- Concrete state: a single bucket whose `full_name` is the empty
string. -/
def cex5b : St :=
  { store := [],
    tuples := [ ⟨⟨"bucket", "e", ""⟩, "", []⟩ ] }

/-- The end-to-end example of the specification: organization `o1/` with
no bindings, project `o1/p1/` granting `roles/storage.admin` to `alice`,
bucket `o1/p1/b1` granting `roles/storage.objectViewer` to `bob`. -/
def cexSpec : St :=
  { store := [⟨"roles/storage.admin", {⟨"user", "alice"⟩}⟩,
              ⟨"roles/storage.objectViewer", {⟨"user", "bob"⟩}⟩],
    tuples :=
      [ ⟨⟨"organization", "o1", "o1/"⟩, "", []⟩,
        ⟨⟨"project", "p1", "o1/p1/"⟩, "", [0]⟩,
        ⟨⟨"bucket", "b1", "o1/p1/b1"⟩, "", [1]⟩ ] }

/-- A rule-engine violation (produced by the external rules engine). -/
structure Violation where
  resource_id : String
  resource_type : String
  full_name : String
  rule_index : Nat
  rule_name : String
  violation_type : String
  members : List Member
  role : String
  inventory_data : String
deriving DecidableEq

/-- The `violation_data` sub-dictionary of one flattened record. -/
structure ViolationData where
  full_name : String
  role : String
  member : String
deriving DecidableEq

/-- One flattened violation record, as yielded by `_flatten_violations`. -/
structure FlatRecord where
  resource_id : String
  resource_type : String
  full_name : String
  rule_index : Nat
  rule_name : String
  violation_type : String
  violation_data : ViolationData
  inventory_data : String
deriving DecidableEq

/-- The inner `for member in violation.members` loop of
`_flatten_violations`: one record per member. -/
def flatten_one (v : Violation) : List Member → List FlatRecord
  | [] => []
  | m :: ms =>
      { resource_id := v.resource_id,
        resource_type := v.resource_type,
        full_name := v.full_name,
        rule_index := v.rule_index,
        rule_name := v.rule_name,
        violation_type := v.violation_type,
        violation_data :=
          { full_name := v.full_name,
            role := v.role,
            member := m.type ++ ":" ++ m.name },
        inventory_data := v.inventory_data } :: flatten_one v ms

/-- `IamPolicyScanner._flatten_violations`, the yielded sequence
materialised as a list. -/
def flatten_violations : List Violation → List FlatRecord
  | [] => []
  | v :: vs => flatten_one v v.members ++ flatten_violations vs

/-- `IamPolicyScanner._find_violations`: drive the external rule engine
over every tuple and concatenate the results in tuple order. -/
def find_violations (engine : Resource → String → List Binding → List Violation)
    (s : St) : List Violation :=
  (s.tuples.map (fun t =>
    engine t.resource t.policy (t.bindings.map (getB s.store)))).flatten

/-- `IamPolicyScanner.run` together with the `sys.exit(1)` guard at the
end of `_retrieve`: with no policy tuples the run terminates with exit
code 1; otherwise ancestor resolution, violation finding and flattening
proceed. -/
def run_scanner (engine : Resource → String → List Binding → List Violation)
    (s : St) : Except Nat (List FlatRecord) :=
  if s.tuples.isEmpty then Except.error 1
  else
    Except.ok (flatten_violations
      (find_violations engine (add_bucket_ancestor_bindings s)))

/-- A concrete violation naming two members. -/
def cexViolation : Violation :=
  { resource_id := "b1", resource_type := "bucket",
    full_name := "o1/p1/b1", rule_index := 0, rule_name := "no-admin",
    violation_type := "IAM_POLICY",
    members := [⟨"user", "alice"⟩, ⟨"user", "bob"⟩],
    role := "roles/storage.admin", inventory_data := "{}" }

/-- A concrete violation naming no members. -/
def cexViolationEmpty : Violation :=
  { resource_id := "p1", resource_type := "project",
    full_name := "o1/p1/", rule_index := 1, rule_name := "no-admin",
    violation_type := "IAM_POLICY", members := [],
    role := "roles/viewer", inventory_data := "{}" }

/-! ## String-search lemmas -/

lemma isPrefixOf_iff_append (l1 l2 : List Char) :
    l1.isPrefixOf l2 = true ↔ ∃ ext, l2 = l1 ++ ext := by
  induction l1 generalizing l2 with
  | nil => simp [List.isPrefixOf]
  | cons a as ih =>
      cases l2 with
      | nil => simp [List.isPrefixOf]
      | cons b bs =>
          simp only [List.isPrefixOf, Bool.and_eq_true, beq_iff_eq, ih,
            List.cons_append]
          constructor
          · rintro ⟨rfl, ext, rfl⟩
            exact ⟨ext, rfl⟩
          · rintro ⟨ext, h⟩
            injection h with h1 h2
            exact ⟨h1.symm, ext, h2⟩

lemma pyStrFind_eq_zero_iff (hay needle : String) :
    pyStrFind hay needle = 0 ↔ ∃ ext, hay.data = needle.data ++ ext := by
  unfold pyStrFind
  rw [List.range_succ_eq_map]
  cases hp : needle.data.isPrefixOf hay.data with
  | true =>
      have h0 : ((fun i => needle.data.isPrefixOf (hay.data.drop i)) 0) = true := by
        simpa using hp
      rw [@List.find?_cons_of_pos Nat (fun i => needle.data.isPrefixOf (hay.data.drop i))
        0 ((List.range hay.data.length).map Nat.succ) h0]
      have hx := (isPrefixOf_iff_append _ _).mp hp
      simpa using hx
  | false =>
      have h0 : ¬(((fun i => needle.data.isPrefixOf (hay.data.drop i)) 0) = true) := by
        simp [hp]
      rw [@List.find?_cons_of_neg Nat (fun i => needle.data.isPrefixOf (hay.data.drop i))
        0 ((List.range hay.data.length).map Nat.succ) h0]
      constructor
      · intro hz
        cases hf : ((List.range hay.data.length).map Nat.succ).find?
            (fun i => needle.data.isPrefixOf (hay.data.drop i)) with
        | none => rw [hf] at hz; exact absurd hz (by decide)
        | some k =>
            rw [hf] at hz
            have hk := List.mem_of_find?_eq_some hf
            simp only [List.mem_map] at hk
            obtain ⟨j, -, rfl⟩ := hk
            simp only [Nat.succ_eq_add_one] at hz
            omega
      · rintro ⟨ext, hext⟩
        have hpre : needle.data.isPrefixOf hay.data = true :=
          (isPrefixOf_iff_append _ _).mpr ⟨ext, hext⟩
        rw [hp] at hpre
        cases hpre

/-! ## C2: the candidate-ancestor condition -/

/-- C2: a tuple `A`'s bindings are considered ancestor bindings of a bucket
with full name `bname` iff `A` is in the input list, `A`'s full name
differs from `bname`, and `A`'s full name is a (strict, given the
difference) prefix of `bname`. -/
theorem ancestor_candidate_iff (s : St) (bname : String) (t : PolicyTuple) :
    t ∈ candidate_ancestors s bname ↔
      t ∈ s.tuples ∧ t.resource.full_name ≠ bname ∧
        ∃ ext : String, bname = t.resource.full_name ++ ext := by
  unfold candidate_ancestors
  rw [List.mem_filter]
  simp only [Bool.and_eq_true, Bool.not_eq_true', beq_eq_false_iff_ne, ne_eq]
  constructor
  · rintro ⟨hmem, hne, hfind⟩
    refine ⟨hmem, hne, ?_⟩
    have h0 : pyStrFind bname t.resource.full_name = 0 := by
      have := of_decide_eq_true hfind
      omega
    obtain ⟨ext, hext⟩ := (pyStrFind_eq_zero_iff _ _).mp h0
    refine ⟨⟨ext⟩, ?_⟩
    apply String.ext
    rw [String.data_append]
    exact hext
  · rintro ⟨hmem, hne, ext, hext⟩
    refine ⟨hmem, hne, ?_⟩
    have h0 : pyStrFind bname t.resource.full_name = 0 := by
      apply (pyStrFind_eq_zero_iff _ _).mpr
      exact ⟨ext.data, by rw [hext, String.data_append]⟩
    simp [h0]

/-! ## C5: empty `full_name` -/

lemma candidate_ancestors_of_empty_bucket_name (s : St) :
    candidate_ancestors s "" = [] := by
  unfold candidate_ancestors
  rw [List.filter_eq_nil_iff]
  intro t _
  by_cases h : t.resource.full_name = ""
  · simp [h]
  · have hne : pyStrFind "" t.resource.full_name ≠ 0 := by
      rw [Ne, pyStrFind_eq_zero_iff]
      rintro ⟨ext, hext⟩
      have hdata : ("" : String).data = [] := rfl
      rw [hdata] at hext
      have hnil := (List.append_eq_nil.mp hext.symm).1
      exact h (String.ext hnil)
    simp [hne]

/-- C5 as amended: a tuple whose `full_name` is the empty string is a
candidate ancestor of *every* bucket whose `full_name` is non-empty and
different (the empty string is a prefix of every string), while a bucket
whose own `full_name` is empty has no candidate ancestors and is left
unchanged by its processing step. -/
theorem empty_full_name_behavior :
    (∀ (s : St) (bname : String) (t : PolicyTuple),
        t ∈ s.tuples → t.resource.full_name = "" → bname ≠ "" →
          t ∈ candidate_ancestors s bname) ∧
    (∀ (s : St) (bi : Nat),
        (s.tuples.getD bi default).resource.full_name = "" →
          processBucket s bi = s) := by
  constructor
  · intro s bname t hmem hfull hbn
    rw [ancestor_candidate_iff]
    refine ⟨hmem, ?_, ⟨bname, ?_⟩⟩
    · rw [hfull]
      exact fun h => hbn h.symm
    · rw [hfull]
      apply String.ext
      rw [String.data_append]
      rfl
  · intro s bi hfull
    show (((candidate_ancestors s
        ((s.tuples.getD bi default).resource.full_name)).map
          (·.bindings)).flatten).foldl (processAncestorRef bi) s = s
    rw [hfull, candidate_ancestors_of_empty_bucket_name]
    rfl

/-- C5, original wording, refuted: in `cex5` the project tuple has an empty
`full_name`, yet after resolution the bucket `b` has acquired that
project's binding, so resolution did not leave the binding lists
unchanged with respect to the empty-named resource. -/
theorem empty_full_name_counterexample :
    tupleValsAt (add_bucket_ancestor_bindings cex5) 1 ≠ tupleValsAt cex5 1 := by
  decide

/-- Witness for `empty_full_name_behavior`. -/
theorem empty_full_name_behavior_witness :
    (⟨⟨"project", "p", ""⟩, "", [0]⟩ : PolicyTuple) ∈ candidate_ancestors cex5 "b" ∧
    processBucket cex5b 0 = cex5b :=
  ⟨empty_full_name_behavior.1 cex5 "b" ⟨⟨"project", "p", ""⟩, "", [0]⟩
      (by decide) rfl (by decide),
   empty_full_name_behavior.2 cex5b 0 rfl⟩

/-! ## C9: empty retrieval exits with code 1 -/

/-- C9: when retrieval produced no policy tuples the run terminates with
exit code 1; no resolution, violation finding or flattening happens and
no violation records are produced. -/
theorem run_exits_on_empty_retrieval
    (engine : Resource → String → List Binding → List Violation) (s : St)
    (h : s.tuples = []) : run_scanner engine s = Except.error 1 := by
  unfold run_scanner
  rw [h]
  rfl

/-- Witness for `run_exits_on_empty_retrieval`. -/
theorem run_exits_on_empty_retrieval_witness :
    run_scanner (fun _ _ _ => []) { store := [], tuples := [] } = Except.error 1 :=
  run_exits_on_empty_retrieval (fun _ _ _ => []) { store := [], tuples := [] } rfl

/-! ## C8: the violation flattener -/

lemma flatten_one_eq_map (v : Violation) (ms : List Member) :
    flatten_one v ms = ms.map (fun m =>
      ({ resource_id := v.resource_id,
         resource_type := v.resource_type,
         full_name := v.full_name,
         rule_index := v.rule_index,
         rule_name := v.rule_name,
         violation_type := v.violation_type,
         violation_data :=
           { full_name := v.full_name, role := v.role,
             member := m.type ++ ":" ++ m.name },
         inventory_data := v.inventory_data } : FlatRecord)) := by
  induction ms with
  | nil => rfl
  | cons m ms ih => simp [flatten_one, ih]

/-- C8: the flattener emits exactly one record per (violation, member)
pair, carrying the violation's metadata and a `violation_data` sub-object
with the member serialised as `"<type>:<name>"`; its total length is the
number of pairs, and a violation with an empty member list contributes
zero records. -/
theorem flatten_violations_spec (vs : List Violation) (v : Violation)
    (h : v.members = []) :
    flatten_violations vs =
      (vs.map (fun w => w.members.map (fun m =>
        ({ resource_id := w.resource_id,
           resource_type := w.resource_type,
           full_name := w.full_name,
           rule_index := w.rule_index,
           rule_name := w.rule_name,
           violation_type := w.violation_type,
           violation_data :=
             { full_name := w.full_name, role := w.role,
               member := m.type ++ ":" ++ m.name },
           inventory_data := w.inventory_data } : FlatRecord)))).flatten ∧
    (flatten_violations vs).length = (vs.map (fun w => w.members.length)).sum ∧
    flatten_violations (v :: vs) = flatten_violations vs := by
  have hmain : ∀ ws : List Violation, flatten_violations ws =
      (ws.map (fun w => w.members.map (fun m =>
        ({ resource_id := w.resource_id,
           resource_type := w.resource_type,
           full_name := w.full_name,
           rule_index := w.rule_index,
           rule_name := w.rule_name,
           violation_type := w.violation_type,
           violation_data :=
             { full_name := w.full_name, role := w.role,
               member := m.type ++ ":" ++ m.name },
           inventory_data := w.inventory_data } : FlatRecord)))).flatten := by
    intro ws
    induction ws with
    | nil => rfl
    | cons w ws ih => simp [flatten_violations, flatten_one_eq_map, ih]
  refine ⟨hmain vs, ?_, ?_⟩
  · rw [hmain vs, List.length_flatten, List.map_map]
    congr 1
    apply List.map_congr_left
    intro w _
    simp
  · show flatten_one v v.members ++ flatten_violations vs = flatten_violations vs
    rw [h]
    rfl

/-- Witness for `flatten_violations_spec`. -/
theorem flatten_violations_spec_witness :
    (flatten_violations [cexViolation]).length = 2 ∧
    flatten_violations (cexViolationEmpty :: [cexViolation]) =
      flatten_violations [cexViolation] := by
  have h := flatten_violations_spec [cexViolation] cexViolationEmpty rfl
  exact ⟨by rw [h.2.1]; rfl, h.2.2⟩

/-! ## Store lemmas -/

lemma getB_set_self (store : List Binding) (b : Nat) (v : Binding)
    (h : b < store.length) : getB (store.set b v) b = v := by
  simp [getB, List.getD_eq_getElem?_getD, List.getElem?_set, h]

lemma getB_set_ne (store : List Binding) (r b : Nat) (v : Binding)
    (h : b ≠ r) : getB (store.set b v) r = getB store r := by
  simp [getB, List.getD_eq_getElem?_getD, List.getElem?_set, h]

lemma merge_into_first_of_no_role (vals : List Binding) (ab : Binding)
    (h : ∀ b ∈ vals, ¬(b.role_name = ab.role_name)) :
    merge_into_first vals ab = vals ++ [ab] := by
  induction vals with
  | nil => rfl
  | cons b bs ih =>
      have hb := h b (List.mem_cons_self b bs)
      simp only [merge_into_first, beq_iff_eq, if_neg hb, List.cons_append,
        List.cons.injEq, true_and]
      exact ih (fun x hx => h x (List.mem_cons_of_mem _ hx))

lemma map_getB_find_merge (store : List Binding) (ab : Binding) (bb : List Nat)
    (hnd : bb.Nodup) (hval : ∀ r ∈ bb, r < store.length) (bref : Nat)
    (hf : bb.find? (fun r => (getB store r).role_name == ab.role_name) = some bref) :
    bb.map (getB (store.set bref (merge_members (getB store bref) ab))) =
      merge_into_first (bb.map (getB store)) ab := by
  induction bb with
  | nil => cases hf
  | cons r rs ih =>
      rcases List.nodup_cons.mp hnd with ⟨hrn, hrs⟩
      by_cases hp : ((getB store r).role_name == ab.role_name) = true
      · rw [@List.find?_cons_of_pos Nat
          (fun x => (getB store x).role_name == ab.role_name) r rs hp] at hf
        injection hf with hb
        subst hb
        simp only [List.map_cons, merge_into_first, if_pos hp]
        rw [getB_set_self _ _ _ (hval r (List.mem_cons_self r rs))]
        congr 1
        apply List.map_congr_left
        intro x hx
        exact getB_set_ne _ _ _ _ (fun he => hrn (he ▸ hx))
      · rw [@List.find?_cons_of_neg Nat
          (fun x => (getB store x).role_name == ab.role_name) r rs hp] at hf
        have hbref := List.mem_of_find?_eq_some hf
        have hru : bref ≠ r := fun he => hrn (he ▸ hbref)
        simp only [List.map_cons, merge_into_first, if_neg hp]
        rw [getB_set_ne _ _ _ _ hru]
        congr 1
        exact ih hrs (fun x hx => hval x (List.mem_cons_of_mem _ hx)) hf

/-! ## C1: the per-binding merge step -/

/-- C1: one per-ancestor-binding step of the resolver, seen on binding
values of the processed bucket, is exactly the spec's case split: skip
roles outside the storage allow-list (whole state untouched), skip a
binding identical to one already on the bucket (whole state untouched),
otherwise union the members into the first existing binding with the same
`role_name`, or append the binding when its role is new to the bucket. -/
theorem resolver_step_correct (s : St) (bi aref : Nat)
    (hbi : bi < s.tuples.length)
    (hnd : ((s.tuples.getD bi default).bindings).Nodup)
    (hval : ∀ r ∈ (s.tuples.getD bi default).bindings, r < s.store.length) :
    tupleValsAt (processAncestorRef bi s aref) bi =
        step_spec (tupleValsAt s bi) (getB s.store aref) ∧
    ((getB s.store aref).role_name ∉ storage_iam_roles →
        processAncestorRef bi s aref = s) ∧
    (getB s.store aref ∈ tupleValsAt s bi → processAncestorRef bi s aref = s) := by
  by_cases hrole : (getB s.store aref).role_name ∈ storage_iam_roles
  · by_cases hmem : getB s.store aref ∈ tupleValsAt s bi
    · have hmem' : getB s.store aref ∈
          ((s.tuples.getD bi default).bindings).map (getB s.store) := hmem
      have hproc : processAncestorRef bi s aref = s := by
        simp only [processAncestorRef]
        rw [if_neg (not_not_intro hrole), if_pos hmem']
      refine ⟨?_, fun hr => absurd hrole hr, fun _ => hproc⟩
      rw [hproc]
      unfold step_spec
      rw [if_neg (not_not_intro hrole), if_pos hmem]
    · have hmem' : getB s.store aref ∉
          ((s.tuples.getD bi default).bindings).map (getB s.store) := hmem
      cases hf : ((s.tuples.getD bi default).bindings).find?
          (fun r => (getB s.store r).role_name == (getB s.store aref).role_name) with
      | some bref =>
          have hproc : processAncestorRef bi s aref =
              { s with store := (s.store.set bref
                    (merge_members (getB s.store bref) (getB s.store aref))) } := by
            simp only [processAncestorRef]
            rw [if_neg (not_not_intro hrole), if_neg hmem', hf]
          refine ⟨?_, fun hr => absurd hrole hr, fun hm => absurd hm hmem⟩
          rw [hproc]
          unfold tupleValsAt step_spec
          rw [if_neg (not_not_intro hrole), if_neg hmem']
          exact map_getB_find_merge s.store _ _ hnd hval bref hf
      | none =>
          have hnorole : ∀ b ∈ ((s.tuples.getD bi default).bindings).map (getB s.store),
              ¬(b.role_name = (getB s.store aref).role_name) := by
            intro b hb
            rw [List.mem_map] at hb
            obtain ⟨r, hr, rfl⟩ := hb
            have hx := List.find?_eq_none.mp hf r hr
            simpa using hx
          have hproc : processAncestorRef bi s aref =
              { s with tuples := (s.tuples.set bi
                    { s.tuples.getD bi default with
                        bindings := (s.tuples.getD bi default).bindings ++ [aref] }) } := by
            simp only [processAncestorRef]
            rw [if_neg (not_not_intro hrole), if_neg hmem', hf]
          refine ⟨?_, fun hr => absurd hrole hr, fun hm => absurd hm hmem⟩
          rw [hproc]
          have hset : ((s.tuples.set bi
              { s.tuples.getD bi default with
                  bindings := (s.tuples.getD bi default).bindings ++ [aref] }).getD
                bi default) =
              { s.tuples.getD bi default with
                  bindings := (s.tuples.getD bi default).bindings ++ [aref] } := by
            rw [List.getD_eq_getElem?_getD, List.getElem?_set, if_pos rfl, if_pos hbi]
            rfl
          unfold tupleValsAt
          rw [hset]
          unfold step_spec
          rw [if_neg (not_not_intro hrole), if_neg hmem']
          rw [merge_into_first_of_no_role _ _ hnorole]
          simp [tupleValsAt]
  · have hproc : processAncestorRef bi s aref = s := by
      simp only [processAncestorRef]
      rw [if_pos hrole]
    refine ⟨?_, fun _ => hproc, fun _ => hproc⟩
    rw [hproc]
    unfold step_spec
    rw [if_pos hrole]

/-- Witness for `resolver_step_correct` on the concrete state `cex4`,
bucket index 2 and ancestor binding reference 0. -/
theorem resolver_step_correct_witness :
    (2 < cex4.tuples.length ∧ ((cex4.tuples.getD 2 default).bindings).Nodup ∧
      (∀ r ∈ (cex4.tuples.getD 2 default).bindings, r < cex4.store.length)) ∧
    (tupleValsAt (processAncestorRef 2 cex4 0) 2 =
        step_spec (tupleValsAt cex4 2) (getB cex4.store 0) ∧
      ((getB cex4.store 0).role_name ∉ storage_iam_roles →
          processAncestorRef 2 cex4 0 = cex4) ∧
      (getB cex4.store 0 ∈ tupleValsAt cex4 2 → processAncestorRef 2 cex4 0 = cex4)) :=
  ⟨⟨by decide, by decide, by decide⟩,
    resolver_step_correct cex4 2 0 (by decide) (by decide) (by decide)⟩

/-! ## Branch equations for one resolver step -/

lemma processAncestorRef_eq_skip (bi aref : Nat) (s : St)
    (h : (getB s.store aref).role_name ∉ storage_iam_roles ∨
      getB s.store aref ∈ ((s.tuples.getD bi default).bindings).map (getB s.store)) :
    processAncestorRef bi s aref = s := by
  simp only [processAncestorRef]
  rcases h with h | h
  · rw [if_pos h]
  · by_cases hrole : (getB s.store aref).role_name ∉ storage_iam_roles
    · rw [if_pos hrole]
    · rw [if_neg hrole, if_pos h]

lemma processAncestorRef_eq_merge (bi aref : Nat) (s : St) (bref : Nat)
    (h1 : (getB s.store aref).role_name ∈ storage_iam_roles)
    (h2 : getB s.store aref ∉
      ((s.tuples.getD bi default).bindings).map (getB s.store))
    (hf : ((s.tuples.getD bi default).bindings).find?
        (fun r => (getB s.store r).role_name == (getB s.store aref).role_name) =
      some bref) :
    processAncestorRef bi s aref =
      { s with store := (s.store.set bref
          (merge_members (getB s.store bref) (getB s.store aref))) } := by
  simp only [processAncestorRef]
  rw [if_neg (not_not_intro h1), if_neg h2, hf]

lemma processAncestorRef_eq_append (bi aref : Nat) (s : St)
    (h1 : (getB s.store aref).role_name ∈ storage_iam_roles)
    (h2 : getB s.store aref ∉
      ((s.tuples.getD bi default).bindings).map (getB s.store))
    (hf : ((s.tuples.getD bi default).bindings).find?
        (fun r => (getB s.store r).role_name == (getB s.store aref).role_name) =
      none) :
    processAncestorRef bi s aref =
      { s with tuples := (s.tuples.set bi
          { s.tuples.getD bi default with
              bindings := (s.tuples.getD bi default).bindings ++ [aref] }) } := by
  simp only [processAncestorRef]
  rw [if_neg (not_not_intro h1), if_neg h2, hf]

/-! ## Preservation machinery -/

lemma foldl_preserves {α : Type} (P : St → Prop) (f : St → α → St)
    (hf : ∀ s a, P s → P (f s a)) :
    ∀ (l : List α) (s : St), P s → P (l.foldl f s) := by
  intro l
  induction l with
  | nil => exact fun s h => h
  | cons a as ih => exact fun s h => ih _ (hf s a h)

lemma getB_merge_role (store : List Binding) (bref : Nat) (ab : Binding)
    (r : Nat) :
    (getB (store.set bref (merge_members (getB store bref) ab)) r).role_name =
      (getB store r).role_name := by
  by_cases h : bref = r
  · subst h
    by_cases hl : bref < store.length
    · rw [getB_set_self _ _ _ hl]
      rfl
    · rw [List.set_eq_of_length_le (Nat.le_of_not_lt hl)]
  · rw [getB_set_ne _ _ _ _ h]

lemma getB_merge_members_subset (store : List Binding) (bref : Nat)
    (ab : Binding) (r : Nat) :
    (getB store r).members ⊆
      (getB (store.set bref (merge_members (getB store bref) ab)) r).members := by
  by_cases h : bref = r
  · subst h
    by_cases hl : bref < store.length
    · rw [getB_set_self _ _ _ hl]
      exact Finset.subset_union_left
    · rw [List.set_eq_of_length_le (Nat.le_of_not_lt hl)]
  · rw [getB_set_ne _ _ _ _ h]

lemma getD_set_ne_tuple (ts : List PolicyTuple) (bi i : Nat) (t : PolicyTuple)
    (h : bi ≠ i) : (ts.set bi t).getD i default = ts.getD i default := by
  rw [List.getD_eq_getElem?_getD, List.getElem?_set_ne h,
    ← List.getD_eq_getElem?_getD]

lemma getD_set_self_tuple (ts : List PolicyTuple) (bi : Nat) (t : PolicyTuple)
    (h : bi < ts.length) : (ts.set bi t).getD bi default = t := by
  rw [List.getD_eq_getElem?_getD, List.getElem?_set, if_pos rfl, if_pos h]
  rfl

lemma st_grows_refl (s : St) : st_grows s s :=
  ⟨rfl, fun _ => ⟨rfl, Finset.Subset.refl _⟩,
    fun _ => ⟨rfl, [], (List.append_nil _).symm⟩⟩

lemma st_grows_trans {s t u : St} (h1 : st_grows s t) (h2 : st_grows t u) :
    st_grows s u := by
  obtain ⟨hl1, hs1, ht1⟩ := h1
  obtain ⟨hl2, hs2, ht2⟩ := h2
  refine ⟨hl2.trans hl1, fun r => ?_, fun i => ?_⟩
  · exact ⟨(hs2 r).1.trans (hs1 r).1, (hs1 r).2.trans (hs2 r).2⟩
  · obtain ⟨hr1, e1, he1⟩ := ht1 i
    obtain ⟨hr2, e2, he2⟩ := ht2 i
    exact ⟨hr2.trans hr1, e1 ++ e2, by rw [he2, he1, List.append_assoc]⟩

lemma step_grows (bj aref : Nat) (s : St) :
    st_grows s (processAncestorRef bj s aref) := by
  by_cases hrole : (getB s.store aref).role_name ∈ storage_iam_roles
  · by_cases hmem : getB s.store aref ∈
        ((s.tuples.getD bj default).bindings).map (getB s.store)
    · rw [processAncestorRef_eq_skip bj aref s (Or.inr hmem)]
      exact st_grows_refl s
    · cases hf : ((s.tuples.getD bj default).bindings).find?
          (fun r => (getB s.store r).role_name == (getB s.store aref).role_name) with
      | some bref =>
          rw [processAncestorRef_eq_merge bj aref s bref hrole hmem hf]
          refine ⟨rfl, fun r => ?_, fun i => ⟨rfl, [], (List.append_nil _).symm⟩⟩
          exact ⟨getB_merge_role s.store bref _ r,
            getB_merge_members_subset s.store bref _ r⟩
      | none =>
          rw [processAncestorRef_eq_append bj aref s hrole hmem hf]
          refine ⟨List.length_set _ _ _, fun r => ⟨rfl, Finset.Subset.refl _⟩,
            fun i => ?_⟩
          by_cases hib : bj = i
          · subst hib
            by_cases hlen : bj < s.tuples.length
            · rw [getD_set_self_tuple _ _ _ hlen]
              exact ⟨rfl, [aref], rfl⟩
            · rw [List.set_eq_of_length_le (Nat.le_of_not_lt hlen)]
              exact ⟨rfl, [], (List.append_nil _).symm⟩
          · rw [getD_set_ne_tuple _ _ _ _ hib]
            exact ⟨rfl, [], (List.append_nil _).symm⟩
  · rw [processAncestorRef_eq_skip bj aref s (Or.inl hrole)]
    exact st_grows_refl s

lemma bucket_grows (t : St) (bi : Nat) : st_grows t (processBucket t bi) := by
  unfold processBucket
  exact foldl_preserves (st_grows t) (processAncestorRef bi)
    (fun u aref hg => st_grows_trans hg (step_grows bi aref u)) _ t
    (st_grows_refl t)

lemma add_grows (s : St) : st_grows s (add_bucket_ancestor_bindings s) := by
  unfold add_bucket_ancestor_bindings
  exact foldl_preserves (st_grows s) processBucket
    (fun t bi hg => st_grows_trans hg (bucket_grows t bi)) _ s (st_grows_refl s)

/-! ## C10: monotonicity of the resolver -/

/-- C10: the resolver never removes a binding or a member: every tuple's
binding list only grows at the end, each original position keeps its
`role_name`, and each original position's member set only grows. -/
theorem resolver_monotone (s : St) (i k : Nat)
    (hk : k < (tupleValsAt s i).length) :
    (tupleValsAt s i).length ≤
        (tupleValsAt (add_bucket_ancestor_bindings s) i).length ∧
    ((tupleValsAt (add_bucket_ancestor_bindings s) i).getD k default).role_name =
        ((tupleValsAt s i).getD k default).role_name ∧
    ((tupleValsAt s i).getD k default).members ⊆
        ((tupleValsAt (add_bucket_ancestor_bindings s) i).getD k default).members := by
  obtain ⟨-, hstore, htup⟩ := add_grows s
  obtain ⟨-, ext, hbind⟩ := htup i
  have hk' : k < ((s.tuples.getD i default).bindings).length := by
    simpa [tupleValsAt] using hk
  obtain ⟨r, hr⟩ : ∃ r, ((s.tuples.getD i default).bindings)[k]? = some r :=
    ⟨_, List.getElem?_eq_getElem hk'⟩
  have hold : (tupleValsAt s i).getD k default = getB s.store r := by
    rw [tupleValsAt, List.getD_eq_getElem?_getD, List.getElem?_map, hr]
    rfl
  have hnew : (tupleValsAt (add_bucket_ancestor_bindings s) i).getD k default =
      getB (add_bucket_ancestor_bindings s).store r := by
    rw [tupleValsAt, hbind, List.getD_eq_getElem?_getD, List.getElem?_map,
      List.getElem?_append_left hk', hr]
    rfl
  refine ⟨?_, ?_, ?_⟩
  · rw [tupleValsAt, tupleValsAt, hbind]
    simp
  · rw [hold, hnew]
    exact (hstore r).1
  · rw [hold, hnew]
    exact (hstore r).2

/-- Witness for `resolver_monotone`. -/
theorem resolver_monotone_witness :
    0 < (tupleValsAt cex4 0).length ∧
    ((tupleValsAt cex4 0).length ≤
        (tupleValsAt (add_bucket_ancestor_bindings cex4) 0).length ∧
      ((tupleValsAt (add_bucket_ancestor_bindings cex4) 0).getD 0 default).role_name =
        ((tupleValsAt cex4 0).getD 0 default).role_name ∧
      ((tupleValsAt cex4 0).getD 0 default).members ⊆
        ((tupleValsAt (add_bucket_ancestor_bindings cex4) 0).getD 0 default).members) :=
  ⟨by decide, resolver_monotone cex4 0 0 (by decide)⟩

/-! ## C6: post-merge role uniqueness -/

lemma roleList_merge_eq (s : St) (bref : Nat) (ab : Binding) (i : Nat) :
    roleList { s with store := (s.store.set bref
        (merge_members (getB s.store bref) ab)) } i = roleList s i := by
  unfold roleList tupleValsAt
  simp only [List.map_map]
  apply List.map_congr_left
  intro r _
  simp only [Function.comp_apply]
  exact getB_merge_role s.store bref ab r

lemma step_preserves_rolesOk (bj aref : Nat) (s : St)
    (h : ∀ i, (roleList s i).Nodup) :
    ∀ i, (roleList (processAncestorRef bj s aref) i).Nodup := by
  by_cases hrole : (getB s.store aref).role_name ∈ storage_iam_roles
  · by_cases hmem : getB s.store aref ∈
        ((s.tuples.getD bj default).bindings).map (getB s.store)
    · rw [processAncestorRef_eq_skip bj aref s (Or.inr hmem)]
      exact h
    · cases hf : ((s.tuples.getD bj default).bindings).find?
          (fun r => (getB s.store r).role_name == (getB s.store aref).role_name) with
      | some bref =>
          rw [processAncestorRef_eq_merge bj aref s bref hrole hmem hf]
          intro i
          rw [roleList_merge_eq]
          exact h i
      | none =>
          rw [processAncestorRef_eq_append bj aref s hrole hmem hf]
          intro i
          by_cases hib : bj = i
          · subst hib
            by_cases hlen : bj < s.tuples.length
            · have hnotin : (getB s.store aref).role_name ∉ roleList s bj := by
                intro hin
                rw [roleList, tupleValsAt, List.map_map, List.mem_map] at hin
                obtain ⟨r, hrmem, hreq⟩ := hin
                have := List.find?_eq_none.mp hf r hrmem
                simp only [Function.comp_apply] at hreq
                simp [hreq] at this
              show (roleList { s with tuples := _ } bj).Nodup
              unfold roleList tupleValsAt
              rw [getD_set_self_tuple _ _ _ hlen]
              simp only [List.map_append, List.map_cons, List.map_nil]
              rw [List.nodup_append]
              refine ⟨h bj, List.nodup_singleton _, ?_⟩
              intro x hx
              simp only [List.mem_singleton]
              intro hx1
              apply hnotin
              rw [roleList, tupleValsAt, List.map_map]
              rw [← hx1]
              simpa [Function.comp] using hx
            · show (roleList { s with tuples := _ } bj).Nodup
              unfold roleList tupleValsAt
              rw [List.set_eq_of_length_le (Nat.le_of_not_lt hlen)]
              exact h bj
          · show (roleList { s with tuples := _ } i).Nodup
            unfold roleList tupleValsAt
            rw [getD_set_ne_tuple _ _ _ _ hib]
            exact h i
  · rw [processAncestorRef_eq_skip bj aref s (Or.inl hrole)]
    exact h

/-- C6: if no tuple's binding list holds two entries with the same
`role_name`, the same is true of every tuple's binding list after the
resolver has run. -/
theorem resolver_preserves_role_uniqueness (s : St)
    (h : ∀ i, i < s.tuples.length → (roleList s i).Nodup) (i : Nat) :
    (roleList (add_bucket_ancestor_bindings s) i).Nodup := by
  have h' : ∀ j, (roleList s j).Nodup := by
    intro j
    by_cases hj : j < s.tuples.length
    · exact h j hj
    · have hd : s.tuples.getD j default = default := by
        rw [List.getD_eq_getElem?_getD, List.getElem?_eq_none (Nat.le_of_not_lt hj)]
        rfl
      unfold roleList tupleValsAt
      rw [hd]
      exact List.nodup_nil
  refine foldl_preserves (fun t => ∀ j, (roleList t j).Nodup) processBucket
    ?_ _ s h' i
  intro t bi ht
  unfold processBucket
  exact foldl_preserves (fun u => ∀ j, (roleList u j).Nodup)
    (processAncestorRef bi) (fun u aref hu => step_preserves_rolesOk bi aref u hu)
    _ t ht

/-- Witness for `resolver_preserves_role_uniqueness`. -/
theorem resolver_preserves_role_uniqueness_witness :
    (∀ i, i < cex7.tuples.length → (roleList cex7 i).Nodup) ∧
    (roleList (add_bucket_ancestor_bindings cex7) 2).Nodup :=
  ⟨by decide, resolver_preserves_role_uniqueness cex7 (by decide) 2⟩

/-! ## Sanity: the specification's end-to-end example -/

lemma end_to_end_example :
    tupleVals (add_bucket_ancestor_bindings cexSpec) =
      [ (⟨"organization", "o1", "o1/"⟩, []),
        (⟨"project", "p1", "o1/p1/"⟩,
          [⟨"roles/storage.admin", {⟨"user", "alice"⟩}⟩]),
        (⟨"bucket", "b1", "o1/p1/b1"⟩,
          [⟨"roles/storage.objectViewer", {⟨"user", "bob"⟩}⟩,
           ⟨"roles/storage.admin", {⟨"user", "alice"⟩}⟩]) ] := by
  decide

/-! ## C4: the resolver mutates non-bucket tuples -/

/-- C4 refuted: on `cex4` the bucket `o/p/b` first receives the
organization's shared binding object and then merges the project's
`alice` into it, so after resolution the *organization* tuple's binding
list reads `admin ↦ {alice, bob}` instead of its directly-attached
`admin ↦ {bob}`. -/
theorem resolver_mutates_ancestor_tuple :
    (cex4.tuples.getD 0 default).resource.type = "organization" ∧
    tupleValsAt (add_bucket_ancestor_bindings cex4) 0 ≠ tupleValsAt cex4 0 ∧
    tupleValsAt (add_bucket_ancestor_bindings cex4) 0 =
      [⟨"roles/storage.admin", {⟨"user", "bob"⟩, ⟨"user", "alice"⟩}⟩] := by
  refine ⟨rfl, by decide, by decide⟩

/-! ## C7: the resolver is not idempotent -/

/-- C7 refuted: on `cex7` the first run leaves the project `o/`'s shared
binding object enlarged to `{x, z}` (via bucket `o/c/c1`), and the second
run merges that enlarged object into bucket `o/b`, changing its members
from `{w, x}` to `{w, x, z}`. -/
theorem resolver_not_idempotent :
    tupleVals (add_bucket_ancestor_bindings (add_bucket_ancestor_bindings cex7)) ≠
      tupleVals (add_bucket_ancestor_bindings cex7) := by
  decide

/-! ## C3: the resolver is order-dependent -/

/-- C3 refuted: `cex3a` and `cex3b` hold the same tuples over the same
store, only in a different processing order; after resolution the bucket
`o/b2` (position 3 in both) ends with members `{a, c}` in one order and
`{a}` in the other, and neither order yields the role-grouped union of
`o/b2`'s own and allow-listed ancestor bindings (which is `admin ↦ {a}`). -/
theorem resolver_order_dependent :
    cex3b.tuples.Perm cex3a.tuples ∧ cex3b.store = cex3a.store ∧
    tupleValsAt (add_bucket_ancestor_bindings cex3a) 3 ≠
      tupleValsAt (add_bucket_ancestor_bindings cex3b) 3 ∧
    tupleValsAt (add_bucket_ancestor_bindings cex3a) 3 ≠
      [⟨"roles/storage.admin", {⟨"user", "a"⟩}⟩] := by
  refine ⟨by decide, rfl, by decide, by decide⟩
